import Mathlib

/-!
Verification of the variant-assembly core of TestVariantApp.

The repository holds three near-duplicate Python programs:

* `TestV-App.py`        — script version (`shuffle_question`, module-level loop);
* `TestVariant-W.py`    — Tkinter UI (`start_generation`, inline option shuffle
                          with a substring fallback);
* `TestApp-With-Validation.py` — Tkinter UI with `validate_question_bank`.

The development below shallowly embeds the parts of those programs that carry
the generation logic: the pseudo-random stream, `random.sample` /
`random.choice` / `random.shuffle` / `random.choices`, row loading, the option
shuffles, the per-variant selection loops and the validator.  Machine-level
randomness is modelled as an explicit stream of naturals consumed one draw at
a time, so every function is a pure function of its inputs and the stream.
-/

namespace TVA

/-- Model of the `random` module state: an infinite stream of raw draws and the
position of the next draw.  `random.seed` fixes the stream; every elementary
draw consumes one position. -/
structure RNG where
  stream : Nat → Nat
  pos : Nat

/-- One elementary draw below `n` (models one consumption of the underlying
generator, e.g. one index pick inside `random.sample` or `random.shuffle`). -/
def RNG.next (r : RNG) (n : Nat) : Nat × RNG :=
  (r.stream r.pos % n, ⟨r.stream, r.pos + 1⟩)

/-- A fixed all-zero stream used for concrete evaluations. -/
def rng0 : RNG := ⟨fun _ => 0, 0⟩

/-! ### Python string primitives

Python `str.strip` / `str.lower` / the `in` substring test are modelled on
`List Char` so that all comparisons reduce by `decide`. -/

/-- Whitespace test used by `str.strip`. -/
def isWsC (c : Char) : Bool :=
  c = ' ' || c = '\t' || c = '\n' || c = '\r' || c = '\x0b' || c = '\x0c'

/-- Drop leading whitespace. -/
def dropWs : List Char → List Char
  | [] => []
  | c :: cs => if isWsC c then dropWs cs else c :: cs

/-- Model of Python `s.strip()` on the character list of `s`. -/
def stripL (l : List Char) : List Char :=
  dropWs (dropWs l.reverse).reverse

/-- Model of Python `s.strip().lower()`. -/
def pyNorm (s : String) : List Char :=
  (stripL s.toList).map Char.toLower

/-- Does `hay` start with `needle`? -/
def startsL : List Char → List Char → Bool
  | [], _ => true
  | _ :: _, [] => false
  | a :: as, b :: bs => a = b && startsL as bs

/-- Model of the Python substring test `needle in hay` (true for the empty
needle, as in Python). -/
def subL (needle : List Char) : List Char → Bool
  | [] => startsL needle []
  | c :: t => startsL needle (c :: t) || subL needle t

/-- First index of an element satisfying `p` (models Python `list.index` and
the first-match `for`/`break` loops of the sources). -/
def idxOf? {α : Type} (p : α → Bool) : List α → Option Nat
  | [] => none
  | a :: as => if p a then some 0 else (idxOf? p as).map (· + 1)

/-! ### Random-draw primitives -/

/-- Model of `random.sample(l, k)`: `k` draws without replacement, each draw
picking one remaining element by a fresh index.  The sources only call it with
`k ≤ len(l)`; on exhaustion the model stops early instead of raising. -/
def pySample {α : Type} [Inhabited α] : List α → Nat → RNG → List α × RNG
  | _, 0, r => ([], r)
  | [], _ + 1, r => ([], r)
  | l@(_ :: _), k + 1, r =>
    let (j, r1) := r.next l.length
    let (rest, r2) := pySample (l.eraseIdx j) k r1
    (l.getD j default :: rest, r2)

/-- Model of `[random.choice(l) for _ in range(k)]`: `k` independent draws
with replacement (used by the shortfall branches of the sources). -/
def pyChoiceN {α : Type} [Inhabited α] (l : List α) : Nat → RNG → List α × RNG
  | 0, r => ([], r)
  | k + 1, r =>
    if l.isEmpty then ([], r)
    else
      let (j, r1) := r.next l.length
      let (rest, r2) := pyChoiceN l k r1
      (l.getD j default :: rest, r2)

/-- Model of `random.shuffle(l)`: an unbiased index-driven permutation
(selection form of Fisher–Yates), consuming one draw per element. -/
def pyShuffle {α : Type} [Inhabited α] (l : List α) (r : RNG) : List α × RNG :=
  pySample l l.length r

/-- Model of `''.join(random.choices(string.digits, k=k))`. -/
def pyDigits : Nat → RNG → List Char × RNG
  | 0, r => ([], r)
  | k + 1, r =>
    let (j, r1) := r.next 10
    let (rest, r2) := pyDigits k r1
    (Char.ofNat (48 + j) :: rest, r2)

/-- Booklet id: seven random digits (`random.choices(string.digits, k=7)`). -/
def bookletId (r : RNG) : String × RNG :=
  let d := pyDigits 7 r
  (String.mk d.1, d.2)

/-! ### Shared row model of the two UI programs

`TestVariant-W.py` lines 356-360 and `TestApp-With-Validation.py` lines
307-311 load each spreadsheet row identically: cell 0 is the question, cells
1..4 are the four options (missing cells become `''`), and the correct text is
`opts[0]`. -/

/-- One loaded question row `(q, opts, corr)` of the UI programs. -/
structure Row where
  q : String
  opts : List String
  corr : String
deriving DecidableEq, Inhabited

/-- Model of the row-loading lines: `q = safe_str(r.iloc[0])`,
`opts = [safe_str(r.iloc[i]) if i < len(r) else '' for i in range(1, 5)]`,
`corr = opts[0] if opts else ''`. -/
def loadRow (cells : List String) : Row :=
  { q := cells.getD 0 ""
    opts := [cells.getD 1 "", cells.getD 2 "", cells.getD 3 "", cells.getD 4 ""]
    corr := [cells.getD 1 "", cells.getD 2 "", cells.getD 3 "",
             cells.getD 4 ""].getD 0 "" }

/-- The label list `['A','B','C','D']` of the sources. -/
def labels : List String := ["A", "B", "C", "D"]

/-- `['A','B','C','D'][i]`, with `""` out of range. -/
def labelOf (i : Nat) : String := labels.getD i ""

/-- Index of a label in `['A','B','C','D']` (4 when absent). -/
def labelIdx (lab : String) : Nat :=
  if lab = "A" then 0 else if lab = "B" then 1 else if lab = "C" then 2
  else if lab = "D" then 3 else 4

/-- One assembled question as the UI programs build it:
`{'question': qtext, 'A': opts_copy[0], ..., 'D': opts_copy[3]}`. -/
structure AQ where
  q : String
  opts : List String
deriving DecidableEq, Inhabited

/-- The option text an answer-key label points at in an assembled question. -/
def AQ.at (aq : AQ) (lab : String) : String :=
  aq.opts.getD (labelIdx lab) ""

/-- One generated variant: assembled questions, the answer key, booklet id. -/
structure VOut where
  qs : List AQ
  key : List String
  booklet : String
deriving DecidableEq, Inhabited

/-- `EXTRA = max(0, QCOUNT - SHEET_LIMIT * FROM_FIRST)` of both UI programs
(`TestVariant-W.py` line 336, `TestApp-With-Validation.py` line 290); natural
subtraction truncates at zero exactly like the Python clamp. -/
def computeExtra (qcount sheetLimit ff : Nat) : Nat :=
  qcount - sheetLimit * ff

/-- Slot assignment `{'A': l[0], 'B': l[1], 'C': l[2], 'D': l[3]}` with `""`
for missing entries. -/
def quadOf (l : List String) : List String :=
  [l.getD 0 "", l.getD 1 "", l.getD 2 "", l.getD 3 ""]

/-- The `while len(opts_copy) < 4: opts_copy.append('')` padding loop. -/
def padTo4 (l : List String) : List String :=
  l ++ List.replicate (4 - l.length) ""

namespace W

/-! Embedding of the generation loop of `TestVariant-W.py` (`start_generation`,
lines 364-419). -/

/-- `[o for o in opts if o and o.strip()]` (line 397). -/
def filteredW (opts : List String) : List String :=
  opts.filter (fun o => !(o = "") && !(stripL o.toList).isEmpty)

/-- The key-label lookup (lines 401-409):
`['A','B','C','D'][opts_copy.index(corr)]`, and on `ValueError` the first
option containing `corr.strip().lower()` (one direction only), else `''`. -/
def keyLabelW (corr : String) (shuf : List String) : String :=
  match idxOf? (fun o => o = corr) shuf with
  | some i => labelOf i
  | none =>
    match idxOf?
        (fun ot => !(corr = "") && !(ot = "")
          && subL (pyNorm corr) (pyNorm ot)) shuf with
    | some i => labelOf i
    | none => ""

/-- Per-question step (lines 396-412): filter, pad with `''` to 4 slots,
`random.shuffle`, key lookup, slot assignment. -/
def stepW (row : Row) (r : RNG) : (AQ × String) × RNG :=
  let s := pyShuffle (padTo4 (filteredW row.opts)) r
  (({ q := row.q, opts := quadOf s.1 }, keyLabelW row.corr s.1), s.2)

/-- Quota selection (lines 375-383): per sheet, skip if empty, then
`random.sample(rows, FROM_FIRST)` when large enough, else
`[random.choice(rows) for _ in range(FROM_FIRST)]`; results are concatenated
in sheet order. -/
def selectQuota (sheets : List (List Row)) (ff : Nat) (r : RNG) :
    List Row × RNG :=
  match sheets with
  | [] => ([], r)
  | rows :: rest =>
    if rows.isEmpty then selectQuota rest ff r
    else
      let pick :=
        if ff ≤ rows.length then pySample rows ff r else pyChoiceN rows ff r
      let tail := selectQuota rest ff pick.2
      (pick.1 ++ tail.1, tail.2)

/-- Overflow selection (lines 385-390): only when `EXTRA > 0` and the flat
pool is non-empty; `random.sample` when the pool suffices, else repeated
`random.choice`. -/
def selectExtras (pool : List Row) (extra : Nat) (r : RNG) : List Row × RNG :=
  if 0 < extra ∧ ¬ pool.isEmpty then
    if extra ≤ pool.length then pySample pool extra r
    else pyChoiceN pool extra r
  else ([], r)

/-- The per-question loop over the selected (already truncated) rows. -/
def assemble : List Row → RNG → (List AQ × List String) × RNG
  | [], r => (([], []), r)
  | row :: rest, r =>
    let s := stepW row r
    let t := assemble rest s.2
    ((s.1.1 :: t.1.1, s.1.2 :: t.1.2), t.2)

/-- One variant (loop body, lines 371-419): quota draws over the first
`SHEET_LIMIT` sheets, overflow draws from the flat pool (all loaded sheets
joined, line 364), one order shuffle of the combined selection, truncation to
`QCOUNT`, per-question option shuffles, then the booklet id. -/
def genVariant (sheets : List (List Row)) (sheetLimit ff extra qcount : Nat)
    (r : RNG) : VOut × RNG :=
  let a := selectQuota (sheets.take sheetLimit) ff r
  let b := selectExtras sheets.flatten extra a.2
  let c := pyShuffle (a.1 ++ b.1) b.2
  let d := assemble (c.1.take qcount) c.2
  let e := bookletId d.2
  ({ qs := d.1.1, key := d.1.2, booklet := e.1 }, e.2)

/-- The whole run: `for v in range(1, VARIANT_COUNT + 1)`, one variant per
iteration, all drawing from the single random stream. -/
def genRun (sheets : List (List Row)) (sheetLimit ff extra qcount : Nat) :
    Nat → RNG → List VOut × RNG
  | 0, r => ([], r)
  | n + 1, r =>
    let v := genVariant sheets sheetLimit ff extra qcount r
    let t := genRun sheets sheetLimit ff extra qcount n v.2
    (v.1 :: t.1, t.2)

end W

namespace Val

/-! Embedding of `TestApp-With-Validation.py`: `validate_question_bank`
(lines 64-78) and the generation part of `start_generation` (lines 280-351). -/

/-- The validator's error kinds; the sheet is identified by its index (the
source interpolates the sheet name into a message string). -/
inductive VErr where
  | insufficientRows (sheet got need : Nat)
  | emptyQuestion (sheet rowIdx : Nat)
  | noCorrect (sheet rowIdx : Nat)
  | notFourOptions (sheet rowIdx : Nat)
deriving DecidableEq

/-- Per-row checks (lines 70-77): empty question, empty correct text, fewer
than 4 whitespace-non-empty options. -/
def rowErrs (sheet rowIdx : Nat) (row : Row) : List VErr :=
  (if (stripL row.q.toList).isEmpty then [VErr.emptyQuestion sheet rowIdx]
   else []) ++
  (if (stripL row.corr.toList).isEmpty then [VErr.noCorrect sheet rowIdx]
   else []) ++
  (if (row.opts.filter (fun o => !(stripL o.toList).isEmpty)).length < 4 then
    [VErr.notFourOptions sheet rowIdx]
   else [])

/-- Per-sheet checks (lines 66-77): row-count check, then the per-row checks
with the row counter starting at 2 (`enumerate(rows, start=2)`). -/
def sheetErrs (sheet ff : Nat) (rows : List Row) : List VErr :=
  (if rows.length < ff then [VErr.insufficientRows sheet rows.length ff]
   else []) ++
  (List.enumFrom 2 rows).flatMap (fun p => rowErrs sheet p.1 p.2)

/-- The sheet loop of `validate_question_bank`
(`for idx, rows in enumerate(sheet_rows_by_sheet)`). -/
def validateGo (idx ff : Nat) : List (List Row) → List VErr
  | [] => []
  | rows :: rest => sheetErrs idx ff rows ++ validateGo (idx + 1) ff rest

/-- `validate_question_bank(sheet_rows_by_sheet, sheet_names, from_first)`:
all errors of all sheets, collected (not fail-fast). -/
def validate (sheets : List (List Row)) (ff : Nat) : List VErr :=
  validateGo 0 ff sheets

/-- `[o for o in opts if o]` (line 340): truthy options only, whitespace-only
options are kept. -/
def filteredVal (opts : List String) : List String :=
  opts.filter (fun o => !(o = ""))

/-- The key-label lookup (lines 344-347): exact `opts_copy.index(corr)` with
`''` on `ValueError`; no substring fallback in this program. -/
def keyLabelVal (corr : String) (shuf : List String) : String :=
  match idxOf? (fun o => o = corr) shuf with
  | some i => labelOf i
  | none => ""

/-- Per-question step (lines 339-349): filter, pad to 4, `random.shuffle`,
exact key lookup, slot assignment. -/
def stepVal (row : Row) (r : RNG) : (AQ × String) × RNG :=
  let s := pyShuffle (padTo4 (filteredVal row.opts)) r
  (({ q := row.q, opts := quadOf s.1 }, keyLabelVal row.corr s.1), s.2)

/-- Quota selection (lines 328-330): per non-empty sheet,
`random.sample(rows, min(FROM_FIRST, len(rows)))`. -/
def selectQuota (sheets : List (List Row)) (ff : Nat) (r : RNG) :
    List Row × RNG :=
  match sheets with
  | [] => ([], r)
  | rows :: rest =>
    if rows.isEmpty then selectQuota rest ff r
    else
      let pick := pySample rows (min ff rows.length) r
      let tail := selectQuota rest ff pick.2
      (pick.1 ++ tail.1, tail.2)

/-- Overflow selection (lines 332-333):
`random.sample(flat_pool, min(EXTRA, len(flat_pool)))` when `EXTRA > 0` and
the pool is non-empty. -/
def selectExtras (pool : List Row) (extra : Nat) (r : RNG) : List Row × RNG :=
  if 0 < extra ∧ ¬ pool.isEmpty then pySample pool (min extra pool.length) r
  else ([], r)

/-- The per-question loop over `selected[:QCOUNT]`. -/
def assemble : List Row → RNG → (List AQ × List String) × RNG
  | [], r => (([], []), r)
  | row :: rest, r =>
    let s := stepVal row r
    let t := assemble rest s.2
    ((s.1.1 :: t.1.1, s.1.2 :: t.1.2), t.2)

/-- One variant (loop body, lines 327-351): quota draws, overflow draws from
the joined flat pool (line 320), order shuffle, truncation to `QCOUNT`,
per-question shuffles, booklet id. -/
def genVariant (sheets : List (List Row)) (ff extra qcount : Nat) (r : RNG) :
    VOut × RNG :=
  let a := selectQuota sheets ff r
  let b := selectExtras sheets.flatten extra a.2
  let c := pyShuffle (a.1 ++ b.1) b.2
  let d := assemble (c.1.take qcount) c.2
  let e := bookletId d.2
  ({ qs := d.1.1, key := d.1.2, booklet := e.1 }, e.2)

/-- The validated pipeline for one variant: load at most `SHEET_LIMIT` sheets
(line 301), run the validator (line 315), abort on any error (lines 316-318),
otherwise generate with the auto-computed `EXTRA` (line 290). -/
def pipeline (allSheets : List (List Row)) (sheetLimit ff qcount : Nat)
    (r : RNG) : Option (VOut × RNG) :=
  let sheets := allSheets.take sheetLimit
  if validate sheets ff = [] then
    some (genVariant sheets ff (computeExtra qcount sheetLimit ff) qcount r)
  else none

end Val

namespace VApp

/-! Embedding of `TestV-App.py`: `shuffle_question` (lines 114-153) and the
overflow-pool selection of the module-level loop (lines 265-276). -/

/-- One normalized question row of `TestV-App.py`
(`{'question', 'A'..'D', 'correct', 'correct_raw'}` after
`normalize_correct_label`, which yields a letter or `None`). -/
structure VRow where
  question : String
  A : String
  B : String
  C : String
  D : String
  correct : Option String
  correct_raw : String
deriving DecidableEq, Inhabited

/-- `row.get(label)` for a letter label. -/
def getOpt (row : VRow) (lab : String) : String :=
  if lab = "A" then row.A else if lab = "B" then row.B
  else if lab = "C" then row.C else if lab = "D" then row.D else ""

/-- The labelled option list `[('A', row['A']), ..., ('D', row['D'])]`
(line 116). -/
def optionsOf (row : VRow) : List (String × String) :=
  [("A", row.A), ("B", row.B), ("C", row.C), ("D", row.D)]

/-- `[o for o in options if o[1].strip() != '']` (line 118). -/
def nonEmptyOpts (row : VRow) : List (String × String) :=
  (optionsOf row).filter (fun o => !(stripL o.2.toList).isEmpty)

/-- The shuffled row: question plus the four option texts at labels `A..D`. -/
structure QRow where
  question : String
  opts : List String
deriving DecidableEq, Inhabited

/-- `new_row.get(label)` for a letter label. -/
def qget (nr : QRow) (lab : String) : String :=
  nr.opts.getD (labelIdx lab) ""

/-- The original correct text (lines 132-139): `row[correct]` when the
normalized label is a letter, else the raw correct text. -/
def origTextOf (row : VRow) : String :=
  match row.correct with
  | some lab => if lab ∈ labels then getOpt row lab else row.correct_raw
  | none => row.correct_raw

/-- The exact-match test of the first recovery loop (line 144):
non-empty option text equal to the original text after strip+lower. -/
def exactHit (nr : QRow) (o lab : String) : Bool :=
  !(qget nr lab = "") && pyNorm (qget nr lab) == pyNorm o

/-- The fallback test of the second recovery loop (line 150): non-empty
option text *containing* the original text (one direction only). -/
def subHit (nr : QRow) (o lab : String) : Bool :=
  !(qget nr lab = "") && subL (pyNorm o) (pyNorm (qget nr lab))

/-- The label-recovery loops of `shuffle_question` (lines 140-152): nothing
when the original text is falsy; else the first label passing `exactHit`;
else the first label passing `subHit`. -/
def codeLabel (nr : QRow) (origText : String) : Option String :=
  if origText = "" then none
  else
    match labels.find? (exactHit nr origText) with
    | some lab => some lab
    | none => labels.find? (subHit nr origText)

/-- The re-labelled row (lines 122-130): shuffle the non-empty options,
assign their texts to `A, B, C, D` in the new order, pad the remaining slots
with `''`. -/
def shuffledQRow (row : VRow) (r : RNG) : QRow :=
  { question := row.question
    opts := quadOf (((pyShuffle (nonEmptyOpts row) r).1).map Prod.snd) }

/-- `shuffle_question(row)` (lines 114-153): fewer than 2 non-empty options
returns the row's options unchanged with `None` and consumes no randomness;
otherwise the shuffled, re-labelled row together with the recovered correct
label. -/
def shuffle_question (row : VRow) (r : RNG) : (QRow × Option String) × RNG :=
  if (nonEmptyOpts row).length < 2 then
    (({ question := row.question, opts := [row.A, row.B, row.C, row.D] },
      none), r)
  else
    ((shuffledQRow row r, codeLabel (shuffledQRow row r) (origTextOf row)),
      (pyShuffle (nonEmptyOpts row) r).2)

/-- The overflow pool of the module-level loop (lines 266-268): the rows of
the sheets after the first 8 (`other_sheet_names = all_sheets[8:]`). -/
def overflowPool (sheets : List (List VRow)) : List VRow :=
  (sheets.drop 8).flatten

/-- The extras selection (lines 269-276): sample from the non-quota pool when
it has at least `EXTRA` rows, else from the global pool of all sheets. -/
def pickExtras (sheets : List (List VRow)) (extra : Nat) (r : RNG) :
    List VRow × RNG :=
  let pool := overflowPool sheets
  if extra ≤ pool.length then pySample pool extra r
  else pySample sheets.flatten extra r

/-- Modelled from the spec (§4.3 step 4), for comparison with `subHit`: the
spec's fallback matches substring containment **in either direction**
("original text contained in candidate, or candidate contained in the
original"). -/
def specHit (nr : QRow) (o lab : String) : Bool :=
  !(qget nr lab = "")
    && (subL (pyNorm o) (pyNorm (qget nr lab))
        || subL (pyNorm (qget nr lab)) (pyNorm o))

/-- Modelled from the spec (§4.3 step 4), for comparison with `codeLabel`:
exact match first, then the two-directional substring fallback. -/
def specLabel (nr : QRow) (origText : String) : Option String :=
  if origText = "" then none
  else
    match labels.find? (exactHit nr origText) with
    | some lab => some lab
    | none => labels.find? (specHit nr origText)

end VApp

/-! ### Stream-consumption discipline

`Good f` says that `f` consumes the random stream monotonically from the
current position, never alters the stream itself, and that its value and
final position depend only on the stream values it actually consumed.  This
is the formal content of the fixed deterministic call-order contract: a run
is reproduced exactly by any stream agreeing on the consumed prefix. -/

/-- `f` only advances the position and keeps the stream. -/
def Mono {β : Type} (f : RNG → β × RNG) : Prop :=
  ∀ r : RNG, r.pos ≤ ((f r).2).pos ∧ ((f r).2).stream = r.stream

/-- The value and final position of `f` depend only on the consumed stream
positions. -/
def Stable {β : Type} (f : RNG → β × RNG) : Prop :=
  ∀ (s₁ s₂ : Nat → Nat) (p : Nat),
    (∀ n, p ≤ n → n < ((f ⟨s₁, p⟩).2).pos → s₁ n = s₂ n) →
    (f ⟨s₂, p⟩).1 = (f ⟨s₁, p⟩).1 ∧
      ((f ⟨s₂, p⟩).2).pos = ((f ⟨s₁, p⟩).2).pos

/-- Conjunction of `Mono` and `Stable`. -/
def Good {β : Type} (f : RNG → β × RNG) : Prop :=
  Mono f ∧ Stable f

/-! ### Concrete inputs used by the counterexamples and witnesses -/

/-- A fully well-formed loaded row. -/
def gRow1 : Row := loadRow ["Q1", "w", "x", "y", "z"]

/-- A second fully well-formed loaded row. -/
def gRow2 : Row := loadRow ["Q2", "w2", "x2", "y2", "z2"]

/-- C2 counterexample: two options equal up to case. -/
def c2Row : VApp.VRow :=
  { question := "q", A := "Paris", B := "PARIS", C := "x", D := ""
    correct := some "A", correct_raw := "Paris" }

/-- Stream whose first draw is 1 (puts option B first in the shuffle). -/
def rngC2 : RNG := ⟨fun n => if n = 0 then 1 else 0, 0⟩

/-- C2 witness row. -/
def c2wRow : VApp.VRow :=
  { question := "q", A := "Paris", B := "Rome", C := "", D := ""
    correct := some "A", correct_raw := "Paris" }

/-- C4 counterexample: the raw correct text strictly contains an option. -/
def c4Row : VApp.VRow :=
  { question := "q", A := "Rome", B := "Paris", C := "", D := ""
    correct := none, correct_raw := "the answer is Rome" }

/-- C4 witness row. -/
def c4wRow : VApp.VRow :=
  { question := "q", A := "alpha", B := "beta", C := "", D := ""
    correct := some "A", correct_raw := "alpha" }

/-- C5 counterexample row: two non-empty options. -/
def c5Row : Row := loadRow ["q", "x", "y", "", ""]

/-- Stream whose first draw is 2 (moves a padded empty slot to the front). -/
def rngC5 : RNG := ⟨fun n => if n = 0 then 2 else 0, 0⟩

/-- C5 witness row. -/
def c5wRow : VApp.VRow :=
  { question := "q", A := "aa", B := "bb", C := "", D := ""
    correct := some "A", correct_raw := "aa" }

/-- A quota-sheet row for the C6 counterexample bank. -/
def c6q (s : String) : VApp.VRow :=
  { question := s, A := "a", B := "b", C := "c", D := "d"
    correct := some "A", correct_raw := "a" }

/-- C6 counterexample bank: 8 quota sheets and one extra sheet. -/
def c6Bank : List (List VApp.VRow) :=
  [[c6q "q1"], [c6q "q2"], [c6q "q3"], [c6q "q4"], [c6q "q5"], [c6q "q6"],
   [c6q "q7"], [c6q "q8"], [c6q "e1", c6q "e2"]]

/-- Single row used by the C6 duplication run. -/
def c6Dr : Row := loadRow ["q", "w", "x", "y", "z"]

/-- C7 counterexample row: one non-empty option. -/
def c7Row : VApp.VRow :=
  { question := "q", A := "only", B := "", C := "", D := ""
    correct := some "A", correct_raw := "only" }

/-- C10 witness cells: empty correct cell, three other options. -/
def c10Cells : List String := ["q", "", "x", "y", "z"]

/-- C1 witness output (the generated variant of the witness pipeline). -/
def c1Out : VOut × RNG :=
  Val.genVariant [[gRow1, gRow2]] 1 (computeExtra 1 1 1) 1 rng0

/-- C8 witness bank: one sheet with one well-formed row. -/
def c8Bank : List (List Row) := [[loadRow ["q8", "w8", "x8", "y8", "z8"]]]

/-- C8 witness stream: agrees with the all-zero stream exactly on the 13
positions the witness run consumes, and differs everywhere after. -/
def c8s2 : Nat → Nat := fun i => if i < 13 then 0 else 99

/-! ## Theorems

General lemmas about the primitives first, then one theorem per claim. -/

theorem perm_getD_cons_eraseIdx {α : Type} [Inhabited α] :
    ∀ (l : List α) (j : Nat), j < l.length →
      List.Perm (l.getD j default :: l.eraseIdx j) l := by
  intro l
  induction l with
  | nil => intro j h; simp at h
  | cons a as ih =>
    intro j h
    cases j with
    | zero => simp [List.getD]
    | succ j =>
      have hj : j < as.length := by simpa using h
      have h1 : (a :: as).getD (j + 1) default = as.getD j default := rfl
      have h2 : (a :: as).eraseIdx (j + 1) = a :: as.eraseIdx j := rfl
      rw [h1, h2]
      exact List.Perm.trans (List.Perm.swap _ _ _) (List.Perm.cons a (ih j hj))

theorem length_eraseIdx_of_lt {α : Type} {l : List α} {j : Nat}
    (h : j < l.length) : (l.eraseIdx j).length = l.length - 1 := by
  rw [List.length_eraseIdx, if_pos h]

theorem pySample_length {α : Type} [Inhabited α] :
    ∀ (k : Nat) (l : List α) (r : RNG),
      ((pySample l k r).1).length = min k l.length := by
  intro k
  induction k with
  | zero => intro l r; simp [pySample]
  | succ k ih =>
    intro l r
    cases l with
    | nil => simp [pySample]
    | cons a as =>
      have hlt : 0 < (a :: as).length := by simp
      have hj : r.stream r.pos % (a :: as).length < (a :: as).length :=
        Nat.mod_lt _ hlt
      have herase :
          ((a :: as).eraseIdx (r.stream r.pos % (as.length + 1))).length
            = as.length := by
        have hj' : r.stream r.pos % (as.length + 1) < (a :: as).length := by
          simpa using hj
        rw [length_eraseIdx_of_lt hj']; simp
      simp only [pySample, RNG.next, List.length_cons, ih, herase]
      omega

theorem pySample_perm {α : Type} [Inhabited α] :
    ∀ (k : Nat) (l : List α) (r : RNG), l.length = k →
      List.Perm (pySample l k r).1 l := by
  intro k
  induction k with
  | zero =>
    intro l r hl
    rw [List.length_eq_zero] at hl
    subst hl; simp [pySample]
  | succ k ih =>
    intro l r hl
    cases l with
    | nil => simp at hl
    | cons a as =>
      have hlt : 0 < (a :: as).length := by simp
      have hj : r.stream r.pos % (a :: as).length < (a :: as).length :=
        Nat.mod_lt _ hlt
      simp only [pySample, RNG.next]
      refine List.Perm.trans (List.Perm.cons _ (ih _ _ ?_)) ?_
      · rw [length_eraseIdx_of_lt hj]
        simpa using hl
      · exact perm_getD_cons_eraseIdx _ _ hj

theorem pyShuffle_perm {α : Type} [Inhabited α] (l : List α) (r : RNG) :
    List.Perm (pyShuffle l r).1 l :=
  pySample_perm l.length l r rfl

theorem pyShuffle_length {α : Type} [Inhabited α] (l : List α) (r : RNG) :
    ((pyShuffle l r).1).length = l.length :=
  (pyShuffle_perm l r).length_eq

theorem pySample_subset {α : Type} [Inhabited α] :
    ∀ (k : Nat) (l : List α) (r : RNG) (x : α),
      x ∈ (pySample l k r).1 → x ∈ l := by
  intro k
  induction k with
  | zero => intro l r x hx; simp [pySample] at hx
  | succ k ih =>
    intro l r x hx
    cases l with
    | nil => simp [pySample] at hx
    | cons a as =>
      have hlt : 0 < (a :: as).length := by simp
      have hj : r.stream r.pos % (a :: as).length < (a :: as).length :=
        Nat.mod_lt _ hlt
      simp only [pySample, RNG.next, List.mem_cons] at hx
      rcases hx with hx | hx
      · rw [hx, List.getD_eq_getElem (a :: as) default hj]
        exact List.getElem_mem _
      · have hsub : x ∈ (a :: as).eraseIdx (r.stream r.pos % (a :: as).length) :=
          ih _ _ _ hx
        exact (List.eraseIdx_sublist _ _).mem hsub

theorem pyChoiceN_subset {α : Type} [Inhabited α] :
    ∀ (k : Nat) (l : List α) (r : RNG) (x : α),
      x ∈ (pyChoiceN l k r).1 → x ∈ l := by
  intro k
  induction k with
  | zero => intro l r x hx; simp [pyChoiceN] at hx
  | succ k ih =>
    intro l r x hx
    by_cases hl : l.isEmpty
    · simp [pyChoiceN, hl] at hx
    · have hlt : 0 < l.length := by
        cases l with
        | nil => simp at hl
        | cons a as => simp
      have hj : r.stream r.pos % l.length < l.length := Nat.mod_lt _ hlt
      rw [pyChoiceN, if_neg (by simpa using hl)] at hx
      simp only [RNG.next, List.mem_cons] at hx
      rcases hx with hx | hx
      · rw [hx, List.getD_eq_getElem l default hj]
        exact List.getElem_mem _
      · exact ih _ _ _ hx

theorem idxOf?_some_spec {α : Type} {p : α → Bool} :
    ∀ {l : List α} {i : Nat}, idxOf? p l = some i →
      ∃ h : i < l.length, p (l.get ⟨i, h⟩) = true := by
  intro l
  induction l with
  | nil => intro i h; simp [idxOf?] at h
  | cons a as ih =>
    intro i h
    by_cases hp : p a
    · simp [idxOf?, hp] at h
      subst h
      exact ⟨by simp, by simpa using hp⟩
    · simp [idxOf?, hp] at h
      obtain ⟨j, hj, rfl⟩ := h
      obtain ⟨hjl, hjp⟩ := ih hj
      exact ⟨by simpa using Nat.succ_lt_succ hjl, hjp⟩

theorem idxOf?_isSome_of_mem {α : Type} {p : α → Bool} :
    ∀ {l : List α} {a : α}, a ∈ l → p a = true → (idxOf? p l).isSome := by
  intro l
  induction l with
  | nil => intro a ha; simp at ha
  | cons b bs ih =>
    intro a ha hp
    by_cases hb : p b
    · simp [idxOf?, hb]
    · rcases List.mem_cons.mp ha with rfl | ha
      · exact absurd hp (by simpa using hb)
      · have := ih ha hp
        simp only [idxOf?, hb, if_false]
        cases h : idxOf? p bs with
        | none => rw [h] at this; simp at this
        | some j => simp [h]

theorem labelIdx_labelOf {i : Nat} (h : i < 4) : labelIdx (labelOf i) = i := by
  interval_cases i <;> rfl

theorem labelOf_mem {i : Nat} (h : i < 4) : labelOf i ∈ labels := by
  interval_cases i <;> decide

theorem labelOf_ne {i : Nat} (h : i < 4) : labelOf i ≠ "" := by
  interval_cases i <;> decide

theorem quadOf_getD (l : List String) {i : Nat} (h : i < 4) :
    (quadOf l).getD i "" = l.getD i "" := by
  interval_cases i <;> rfl

theorem quadOf_take (l : List String) (h : l.length ≤ 4) :
    (quadOf l).take l.length = l := by
  rcases l with _ | ⟨a, _ | ⟨b, _ | ⟨c, _ | ⟨d, rest⟩⟩⟩⟩
  · rfl
  · rfl
  · rfl
  · rfl
  · cases rest with
    | nil => rfl
    | cons e t => simp at h

theorem padTo4_length (l : List String) :
    (padTo4 l).length = max 4 l.length := by
  simp [padTo4]
  omega

theorem mem_padTo4_left (l : List String) {x : String} (hx : x ∈ l) :
    x ∈ padTo4 l :=
  List.mem_append_left _ hx

theorem empty_mem_padTo4 {l : List String} (h : l.length < 4) :
    "" ∈ padTo4 l := by
  refine List.mem_append_right _ ?_
  rw [List.mem_replicate]
  exact ⟨by omega, rfl⟩

/-! ### Claim theorems -/

/-- C3 counterexample: a bank and spec with
`perGroupQuota * groupCount + overflowCount ≠ totalQuestions`
(`FROM_FIRST = 2`, `SHEET_LIMIT = 1`, `QCOUNT = 1`, so `2*1 + 0 = 2 ≠ 1`)
passes `validate_question_bank` with no error at all and generation proceeds:
no `ConfigMismatch` is ever reported, the mismatch is silently absorbed by
the clamped auto-computed `EXTRA`. -/
theorem C3_cex :
    Val.validate ([[gRow1, gRow2]].take 1) 2 = [] ∧
      (Val.pipeline [[gRow1, gRow2]] 1 2 1 rng0).isSome = true ∧
      computeExtra 1 1 2 = 0 ∧ 2 * 1 + computeExtra 1 1 2 ≠ 1 :=
  ⟨rfl, rfl, rfl, by decide⟩

/-- C3 (corrected): the code has no arithmetic validation; the overflow count
is auto-computed as `max(0, totalQuestions - sheetLimit*perSheetQuota)`, so the
identity `quota·groups + overflow = total` is silently repaired upward
(`quota·groups + extra = max (quota·groups) total`), and whenever
`total < quota·groups` the clamp yields `0` and the arithmetic mismatch
persists without any reported error. -/
theorem C3_thm (q s f : Nat) :
    s * f + computeExtra q s f = max (s * f) q ∧
      (q < s * f → computeExtra q s f = 0 ∧ s * f + computeExtra q s f ≠ q) := by
  unfold computeExtra
  constructor
  · omega
  · intro h
    omega

/-- C3 witness: the corrected statement evaluated at the counterexample's
spec numbers. -/
theorem C3_thm_wit :
    1 * 2 + computeExtra 1 1 2 = max (1 * 2) 1 ∧
      (computeExtra 1 1 2 = 0 ∧ 1 * 2 + computeExtra 1 1 2 ≠ 1) :=
  ⟨(C3_thm 1 1 2).1, (C3_thm 1 1 2).2 (by decide)⟩

/-- C7 counterexample: for a record with one non-empty option,
`shuffle_question` returns the options unchanged but pairs them with `None`
(rendered as the empty marker in the key), not with the record's original
correct label `'A'`. -/
theorem C7_cex :
    (VApp.nonEmptyOpts c7Row).length < 2 ∧
      c7Row.correct = some "A" ∧
      (VApp.shuffle_question c7Row rng0).1.1.opts = ["only", "", "", ""] ∧
      (VApp.shuffle_question c7Row rng0).1.2 = none ∧
      (VApp.shuffle_question c7Row rng0).1.2 ≠ c7Row.correct :=
  ⟨by decide, rfl, rfl, rfl, by decide⟩

/-- C7 (corrected): for every record with fewer than 2 non-empty options the
shuffler skips shuffling and returns the options unchanged, but together with
the unresolved marker `None` (the answer-key entry becomes the empty marker),
not the original correct label; no randomness is consumed. -/
theorem C7_thm (row : VApp.VRow) (r : RNG)
    (h : (VApp.nonEmptyOpts row).length < 2) :
    VApp.shuffle_question row r =
      (({ question := row.question, opts := [row.A, row.B, row.C, row.D] },
        none), r) := by
  rw [VApp.shuffle_question, if_pos h]

/-- C7 witness: the corrected statement evaluated on the degenerate record. -/
theorem C7_thm_wit :
    VApp.shuffle_question c7Row rng0 =
      (({ question := "q", opts := ["only", "", "", ""] }, none), rng0) :=
  C7_thm c7Row rng0 (by decide)

/-- C9: in the two UI implementations the loaded correct text is by
construction the first option column (`corr = opts[0]`), so the validator's
missing-correct-answer check fires exactly when option A is
whitespace-empty. -/
theorem C9_thm (cells : List String) (sIdx rIdx : Nat) :
    (loadRow cells).corr = (loadRow cells).opts.getD 0 "" ∧
      (Val.VErr.noCorrect sIdx rIdx ∈ Val.rowErrs sIdx rIdx (loadRow cells) ↔
        (stripL ((loadRow cells).opts.getD 0 "").toList).isEmpty = true) := by
  refine ⟨rfl, ?_⟩
  have hc : (loadRow cells).corr = (loadRow cells).opts.getD 0 "" := rfl
  rw [← hc]
  unfold Val.rowErrs
  by_cases h1 : (stripL (loadRow cells).q.toList).isEmpty <;>
    by_cases h2 : (stripL (loadRow cells).corr.toList).isEmpty <;>
      by_cases h3 :
        ((loadRow cells).opts.filter
          (fun o => !(stripL o.toList).isEmpty)).length < 4 <;>
        simp [h1, h2, h3]

/-- C6 counterexample: in `TestV-App.py` the overflow pool is the rows of the
sheets *after* the first 8, not the concatenation of every group: a quota-
sheet row is in the bank but not in the pool, and the overflow draws come
from the ninth sheet only. -/
theorem C6_cex :
    VApp.overflowPool c6Bank ≠ c6Bank.flatten ∧
      c6q "q1" ∈ c6Bank.flatten ∧
      c6q "q1" ∉ VApp.overflowPool c6Bank ∧
      (VApp.pickExtras c6Bank 2 rng0).1 = [c6q "e1", c6q "e2"] ∧
      c6q "e1" ∈ VApp.overflowPool c6Bank :=
  ⟨by decide, by decide, by decide, rfl, by decide⟩

/-- C6 (corrected): in the two UI implementations the overflow rows do come
from the flat pool of all loaded groups; in `TestV-App.py` they come from the
non-quota sheets (`all_sheets[8:]`) whenever that pool has at least `EXTRA`
rows; and overflow draws are independent of the quota draws, so one run picks
the same single row once as a quota draw and again as an overflow draw. -/
theorem C6_thm :
    (∀ (sheets : List (List Row)) (extra : Nat) (r : RNG) (x : Row),
        x ∈ (W.selectExtras sheets.flatten extra r).1 → x ∈ sheets.flatten) ∧
      (∀ (sheets : List (List VApp.VRow)) (extra : Nat) (r : RNG)
          (x : VApp.VRow), extra ≤ (VApp.overflowPool sheets).length →
          x ∈ (VApp.pickExtras sheets extra r).1 →
            x ∈ (sheets.drop 8).flatten) ∧
      ((W.selectQuota [[c6Dr]] 1 rng0).1 = [c6Dr] ∧
        (W.selectExtras ([[c6Dr]] : List (List Row)).flatten 1
          (W.selectQuota [[c6Dr]] 1 rng0).2).1 = [c6Dr]) := by
  refine ⟨?_, ?_, rfl, rfl⟩
  · intro sheets extra r x hx
    unfold W.selectExtras at hx
    by_cases hc : 0 < extra ∧ ¬ (sheets.flatten).isEmpty = true
    · rw [if_pos hc] at hx
      by_cases hle : extra ≤ (sheets.flatten).length
      · rw [if_pos hle] at hx
        exact pySample_subset _ _ _ _ hx
      · rw [if_neg hle] at hx
        exact pyChoiceN_subset _ _ _ _ hx
    · rw [if_neg hc] at hx
      simp at hx
  · intro sheets extra r x hle hx
    simp only [VApp.pickExtras] at hx
    rw [if_pos hle] at hx
    exact pySample_subset _ _ _ _ hx

/-- C6 witness: the corrected statement's two pool facts evaluated at the
concrete banks. -/
theorem C6_thm_wit :
    c6Dr ∈ ([[c6Dr]] : List (List Row)).flatten ∧
      c6q "e1" ∈ (c6Bank.drop 8).flatten :=
  ⟨C6_thm.1 [[c6Dr]] 1 rng0 c6Dr (by decide),
   C6_thm.2.1 c6Bank 2 rng0 (c6q "e1") (by decide) (by decide)⟩

/-- C5 counterexample: in `TestVariant-W.py` the empty slots are padded
*before* the shuffle and are permuted together with the real options, so for
a record with 2 non-empty options a shuffle outcome puts the empty slot at
label A ahead of a non-empty option at label B. -/
theorem C5_cex :
    2 ≤ (W.filteredW c5Row.opts).length ∧
      (W.filteredW c5Row.opts).length < 4 ∧
      ((W.stepW c5Row rngC5).1.1).opts = ["", "x", "y", ""] ∧
      ((W.stepW c5Row rngC5).1.1).opts.getD 0 "" = "" ∧
      ((W.stepW c5Row rngC5).1.1).opts.getD 1 "" ≠ "" :=
  ⟨by decide, by decide, rfl, rfl, by decide⟩

/-- C1 counterexample: a bank that passes `validate_question_bank` (one sheet
with one fully well-formed row, `FROM_FIRST = 1`) with `QCOUNT = 3` yields a
variant of only 2 questions: the quota draw supplies 1 row and the clamped
overflow can only supply `min(EXTRA, len(flat_pool)) = 1` more, so the
truncation to `totalQuestions` produces fewer. -/
theorem C1_cex :
    Val.validate ([[gRow1]].take 1) 1 = [] ∧
      (Val.pipeline [[gRow1]] 1 1 3 rng0).map (fun p => p.1.qs.length)
        = some 2 ∧
      (2 : Nat) ≠ 3 :=
  ⟨rfl, rfl, by decide⟩

theorem validateGo_rows_ge {ff : Nat} :
    ∀ (sheets : List (List Row)) (idx : Nat),
      Val.validateGo idx ff sheets = [] → ∀ rows ∈ sheets, ff ≤ rows.length := by
  intro sheets
  induction sheets with
  | nil => intro idx _ rows hr; simp at hr
  | cons rows rest ih =>
    intro idx h r hr
    simp only [Val.validateGo] at h
    rcases List.append_eq_nil.mp h with ⟨h1, h2⟩
    rcases List.mem_cons.mp hr with rfl | hr
    · unfold Val.sheetErrs at h1
      rcases List.append_eq_nil.mp h1 with ⟨h1a, _⟩
      by_contra hlt
      rw [if_pos (by omega)] at h1a
      exact List.cons_ne_nil _ _ h1a
    · exact ih (idx + 1) h2 r hr

theorem selectQuotaVal_length :
    ∀ (sheets : List (List Row)) (ff : Nat) (r : RNG),
      (∀ rows ∈ sheets, ff ≤ rows.length) →
      ((Val.selectQuota sheets ff r).1).length = sheets.length * ff := by
  intro sheets
  induction sheets with
  | nil => intro ff r _; simp [Val.selectQuota]
  | cons rows rest ih =>
    intro ff r h
    have hge : ff ≤ rows.length := h rows (List.mem_cons_self _ _)
    have hrest : ∀ rs ∈ rest, ff ≤ rs.length :=
      fun rs hrs => h rs (List.mem_cons_of_mem _ hrs)
    by_cases he : rows.isEmpty
    · have hnil : rows = [] := by simpa [List.isEmpty_iff] using he
      have hff : ff = 0 := by rw [hnil] at hge; simpa using hge
      simp only [Val.selectQuota, if_pos he]
      rw [ih ff r hrest, hff]
      ring
    · simp only [Val.selectQuota, if_neg he]
      rw [List.length_append, pySample_length, ih ff _ hrest]
      have h1 : min (min ff rows.length) rows.length = ff := by
        rw [Nat.min_eq_left (Nat.min_le_right ff rows.length),
          Nat.min_eq_left hge]
      rw [h1, List.length_cons]
      ring

theorem selectExtrasVal_length (pool : List Row) (extra : Nat) (r : RNG)
    (h : extra ≤ pool.length) :
    ((Val.selectExtras pool extra r).1).length = extra := by
  unfold Val.selectExtras
  by_cases hc : 0 < extra ∧ ¬ pool.isEmpty = true
  · rw [if_pos hc, pySample_length]
    omega
  · rw [if_neg hc]
    have hz : extra = 0 := by
      by_contra hne
      have hpos : 0 < extra := Nat.pos_of_ne_zero hne
      have hemp : pool.isEmpty = true := by
        by_contra hni
        exact hc ⟨hpos, hni⟩
      have hp : pool = [] := by simpa [List.isEmpty_iff] using hemp
      rw [hp] at h
      simp at h
      omega
    simp [hz]

theorem assembleVal_length :
    ∀ (rows : List Row) (r : RNG),
      ((Val.assemble rows r).1.1).length = rows.length ∧
        ((Val.assemble rows r).1.2).length = rows.length := by
  intro rows
  induction rows with
  | nil => intro r; simp [Val.assemble]
  | cons row rest ih =>
    intro r
    constructor
    · show ((Val.stepVal row r).1.1 ::
          (Val.assemble rest (Val.stepVal row r).2).1.1).length
        = rest.length + 1
      rw [List.length_cons, (ih _).1]
    · show ((Val.stepVal row r).1.2 ::
          (Val.assemble rest (Val.stepVal row r).2).1.2).length
        = rest.length + 1
      rw [List.length_cons, (ih _).2]

/-- C1 (corrected): when validation passes *and* the bank actually has
`SHEET_LIMIT` sheets *and* the flat pool has at least `EXTRA` rows, every
variant has exactly `totalQuestions` questions (and answer-key entries).
Without the two added hypotheses the count can fall short, as `C1_cex`
shows: the overflow draw is clamped to `min(EXTRA, len(flat_pool))` and the
sheet list to the first `SHEET_LIMIT`, so the combined selection can be
shorter than `totalQuestions` and the truncation yields fewer. -/
theorem C1_thm (allSheets : List (List Row)) (sheetLimit ff qcount : Nat)
    (r : RNG) (out : VOut × RNG)
    (hpipe : Val.pipeline allSheets sheetLimit ff qcount r = some out)
    (hsheets : sheetLimit ≤ allSheets.length)
    (hpool : computeExtra qcount sheetLimit ff ≤
      ((allSheets.take sheetLimit).flatten).length) :
    out.1.qs.length = qcount ∧ out.1.key.length = qcount := by
  by_cases hval : Val.validate (allSheets.take sheetLimit) ff = []
  · simp only [Val.pipeline, if_pos hval] at hpipe
    have hg :
        Val.genVariant (allSheets.take sheetLimit) ff
          (computeExtra qcount sheetLimit ff) qcount r = out :=
      Option.some.inj hpipe
    have hrows : ∀ rows ∈ allSheets.take sheetLimit, ff ≤ rows.length :=
      validateGo_rows_ge (allSheets.take sheetLimit) 0 hval
    have hlen : (allSheets.take sheetLimit).length = sheetLimit := by
      rw [List.length_take]
      exact Nat.min_eq_left hsheets
    have hsel :
        ((Val.selectQuota (allSheets.take sheetLimit) ff r).1).length
          = sheetLimit * ff := by
      rw [selectQuotaVal_length _ ff r hrows, hlen]
    have hext :
        ((Val.selectExtras (allSheets.take sheetLimit).flatten
          (computeExtra qcount sheetLimit ff)
          (Val.selectQuota (allSheets.take sheetLimit) ff r).2).1).length
          = computeExtra qcount sheetLimit ff :=
      selectExtrasVal_length _ _ _ hpool
    rw [← hg]
    simp only [Val.genVariant]
    constructor
    · rw [(assembleVal_length _ _).1, List.length_take, pyShuffle_length,
        List.length_append, hsel, hext]
      unfold computeExtra
      omega
    · rw [(assembleVal_length _ _).2, List.length_take, pyShuffle_length,
        List.length_append, hsel, hext]
      unfold computeExtra
      omega
  · simp only [Val.pipeline, if_neg hval] at hpipe
    exact absurd hpipe (by simp)

/-- C1 witness: a consistent configuration (one sheet, quota 1, total 1,
overflow 0) where the corrected statement gives exactly `totalQuestions`
questions. -/
theorem C1_thm_wit :
    Val.pipeline [[gRow1, gRow2]] 1 1 1 rng0 = some c1Out ∧
      c1Out.1.qs.length = 1 ∧ c1Out.1.key.length = 1 :=
  ⟨rfl,
    (C1_thm [[gRow1, gRow2]] 1 1 1 rng0 c1Out rfl (by decide) (by decide)).1,
    (C1_thm [[gRow1, gRow2]] 1 1 1 rng0 c1Out rfl (by decide) (by decide)).2⟩

theorem mem_optionsOf (row : VApp.VRow) {lab : String} (h : lab ∈ labels) :
    (lab, VApp.getOpt row lab) ∈ VApp.optionsOf row := by
  have h4 : lab = "A" ∨ lab = "B" ∨ lab = "C" ∨ lab = "D" := by
    simpa [labels] using h
  rcases h4 with rfl | rfl | rfl | rfl <;>
    simp [VApp.optionsOf, VApp.getOpt]

theorem codeLabel_of_exact (nr : VApp.QRow) (o : String) (ho : ¬ o = "")
    (hex : ∃ lab ∈ labels, VApp.exactHit nr o lab = true) :
    ∃ ℓ, VApp.codeLabel nr o = some ℓ ∧ ¬ VApp.qget nr ℓ = "" ∧
      pyNorm (VApp.qget nr ℓ) = pyNorm o := by
  obtain ⟨lab0, hmem, hhit⟩ := hex
  cases hfind : labels.find? (VApp.exactHit nr o) with
  | none =>
    exact absurd hhit (by simpa using List.find?_eq_none.mp hfind lab0 hmem)
  | some ℓ =>
    have hp : VApp.exactHit nr o ℓ = true := List.find?_some hfind
    unfold VApp.exactHit at hp
    rw [Bool.and_eq_true] at hp
    refine ⟨ℓ, ?_, ?_, ?_⟩
    · rw [VApp.codeLabel, if_neg ho, hfind]
    · simpa using hp.1
    · exact eq_of_beq hp.2

theorem qget_shuffledQRow (row : VApp.VRow) (r : RNG) {i : Nat} (h : i < 4) :
    VApp.qget (VApp.shuffledQRow row r) (labelOf i)
      = (((pyShuffle (VApp.nonEmptyOpts row) r).1).map Prod.snd).getD i "" := by
  show (VApp.shuffledQRow row r).opts.getD (labelIdx (labelOf i)) "" = _
  rw [labelIdx_labelOf h]
  exact quadOf_getD _ h

theorem nonEmptyOpts_snd_ne (row : VApp.VRow) {x : String}
    (hx : x ∈ (VApp.nonEmptyOpts row).map Prod.snd) :
    ¬ x = "" ∧ (stripL x.toList).isEmpty = false := by
  obtain ⟨p, hp, rfl⟩ := List.mem_map.mp hx
  have hpred := (List.mem_filter.mp hp).2
  constructor
  · intro he
    rw [he] at hpred
    exact absurd hpred (by decide)
  · simpa using hpred

theorem nonEmptyOpts_length_le (row : VApp.VRow) :
    (VApp.nonEmptyOpts row).length ≤ 4 := by
  have h := List.length_filter_le
    (fun o => !(stripL (Prod.snd o).toList).isEmpty) (VApp.optionsOf row)
  simpa [VApp.nonEmptyOpts, VApp.optionsOf] using h

/-- C2 counterexample: a record with at least 2 non-empty options and a
resolvable correct label `'A'` (text `"Paris"`), where after the shuffle the
recovered label points at the *other* option `"PARIS"`: the exact matcher
compares strip+lower, so the pointed text differs from the originally correct
option's text. -/
theorem C2_cex :
    c2Row.correct = some "A" ∧ ("A" : String) ∈ labels ∧
      (stripL (VApp.getOpt c2Row "A").toList).isEmpty = false ∧
      2 ≤ (VApp.nonEmptyOpts c2Row).length ∧
      (VApp.shuffle_question c2Row rngC2).1.2 = some "A" ∧
      VApp.qget (VApp.shuffle_question c2Row rngC2).1.1 "A" = "PARIS" ∧
      VApp.getOpt c2Row "A" = "Paris" ∧
      ("PARIS" : String) ≠ "Paris" :=
  ⟨rfl, by decide, by decide, by decide, rfl, rfl, rfl, by decide⟩

/-- C2 (corrected): for every record with at least 2 non-empty options and a
resolvable correct label whose option text is whitespace-non-empty, the
shuffle always recovers some label, and the text that label points at equals
the originally correct option's text *up to whitespace-trimming and case*
(`strip().lower()`), not literally (see `C2_cex`). -/
theorem C2_thm (row : VApp.VRow) (r : RNG) (lab : String)
    (hc : row.correct = some lab) (hl : lab ∈ labels)
    (hs : (stripL (VApp.getOpt row lab).toList).isEmpty = false)
    (h2 : 2 ≤ (VApp.nonEmptyOpts row).length) :
    ∃ ℓ, (VApp.shuffle_question row r).1.2 = some ℓ ∧
      pyNorm (VApp.qget (VApp.shuffle_question row r).1.1 ℓ)
        = pyNorm (VApp.getOpt row lab) := by
  have hn2 : ¬ (VApp.nonEmptyOpts row).length < 2 := by omega
  have horig : VApp.origTextOf row = VApp.getOpt row lab := by
    unfold VApp.origTextOf
    rw [hc]
    simp [hl]
  have hne : ¬ VApp.getOpt row lab = "" := by
    intro he
    rw [he] at hs
    exact absurd hs (by decide)
  have hpair : (lab, VApp.getOpt row lab)
      ∈ (pyShuffle (VApp.nonEmptyOpts row) r).1 := by
    refine (pyShuffle_perm _ _).mem_iff.mpr ?_
    refine List.mem_filter.mpr ⟨mem_optionsOf row hl, ?_⟩
    simp only [hs]
    decide
  have htext : VApp.getOpt row lab
      ∈ ((pyShuffle (VApp.nonEmptyOpts row) r).1).map Prod.snd :=
    List.mem_map.mpr ⟨_, hpair, rfl⟩
  obtain ⟨⟨i, hi⟩, hgi⟩ := List.mem_iff_get.mp htext
  have hlen4 :
      (((pyShuffle (VApp.nonEmptyOpts row) r).1).map Prod.snd).length ≤ 4 := by
    rw [List.length_map, pyShuffle_length]
    exact nonEmptyOpts_length_le row
  have hi4 : i < 4 := lt_of_lt_of_le hi hlen4
  have hqget : VApp.qget (VApp.shuffledQRow row r) (labelOf i)
      = VApp.getOpt row lab := by
    rw [qget_shuffledQRow row r hi4, List.getD_eq_getElem _ _ hi]
    exact hgi
  have hex : ∃ l0 ∈ labels,
      VApp.exactHit (VApp.shuffledQRow row r) (VApp.getOpt row lab) l0
        = true := by
    refine ⟨labelOf i, labelOf_mem hi4, ?_⟩
    unfold VApp.exactHit
    rw [hqget]
    simp [hne]
  obtain ⟨ℓ, hcl, _, hlnorm⟩ :=
    codeLabel_of_exact (VApp.shuffledQRow row r) (VApp.getOpt row lab) hne hex
  refine ⟨ℓ, ?_, ?_⟩
  · simp only [VApp.shuffle_question]
    rw [if_neg hn2, horig]
    exact hcl
  · simp only [VApp.shuffle_question]
    rw [if_neg hn2]
    exact hlnorm

/-- C2 witness: the corrected statement evaluated on a concrete record. -/
theorem C2_thm_wit :
    ∃ ℓ, (VApp.shuffle_question c2wRow rng0).1.2 = some ℓ ∧
      pyNorm (VApp.qget (VApp.shuffle_question c2wRow rng0).1.1 ℓ)
        = pyNorm (VApp.getOpt c2wRow "A") :=
  C2_thm c2wRow rng0 "A" rfl (by decide) (by decide) (by decide)

/-- C4 counterexample: a record whose original correct text strictly contains
an option text (candidate-contained-in-original).  The claim's "either
direction" fallback would resolve it (the spec-modelled `specLabel` returns
`'A'`), but the code's one-directional fallback returns the unresolved
marker. -/
theorem C4_cex :
    2 ≤ (VApp.nonEmptyOpts c4Row).length ∧
      VApp.origTextOf c4Row ≠ "" ∧
      (VApp.shuffle_question c4Row rng0).1.2 = none ∧
      VApp.specLabel ((VApp.shuffle_question c4Row rng0).1.1)
        (VApp.origTextOf c4Row) = some "A" :=
  ⟨by decide, by decide, rfl, rfl⟩

/-- C4 (corrected): the new correct label is determined by a case-insensitive
whitespace-trimmed exact match first, and when that fails by a
case-insensitive substring containment in **one direction only** (original
text contained in the candidate); the empty label is returned exactly when
both of those fail (or the original text is empty).  The
candidate-contained-in-original direction of the claim does not exist in the
code (`C4_cex`). -/
theorem C4_thm (row : VApp.VRow) (r : RNG)
    (h2 : 2 ≤ (VApp.nonEmptyOpts row).length) :
    (VApp.origTextOf row = "" → (VApp.shuffle_question row r).1.2 = none) ∧
      (∀ ℓ, (VApp.shuffle_question row r).1.2 = some ℓ → ℓ ∈ labels ∧
        (VApp.exactHit (VApp.shuffledQRow row r) (VApp.origTextOf row) ℓ
            = true ∨
          ((∀ lab ∈ labels,
              VApp.exactHit (VApp.shuffledQRow row r) (VApp.origTextOf row) lab
                = false) ∧
            VApp.subHit (VApp.shuffledQRow row r) (VApp.origTextOf row) ℓ
              = true))) ∧
      (VApp.origTextOf row ≠ "" → (VApp.shuffle_question row r).1.2 = none →
        ∀ lab ∈ labels,
          VApp.exactHit (VApp.shuffledQRow row r) (VApp.origTextOf row) lab
              = false ∧
            VApp.subHit (VApp.shuffledQRow row r) (VApp.origTextOf row) lab
              = false) := by
  have hn2 : ¬ (VApp.nonEmptyOpts row).length < 2 := by omega
  have hres : (VApp.shuffle_question row r).1.2
      = VApp.codeLabel (VApp.shuffledQRow row r) (VApp.origTextOf row) := by
    simp only [VApp.shuffle_question]
    rw [if_neg hn2]
  refine ⟨?_, ?_, ?_⟩
  · intro ho
    rw [hres, VApp.codeLabel, if_pos ho]
  · intro ℓ hℓ
    rw [hres] at hℓ
    by_cases ho : VApp.origTextOf row = ""
    · rw [VApp.codeLabel, if_pos ho] at hℓ
      exact absurd hℓ (by simp)
    · rw [VApp.codeLabel, if_neg ho] at hℓ
      cases hfe : labels.find?
          (VApp.exactHit (VApp.shuffledQRow row r) (VApp.origTextOf row)) with
      | some lab =>
        rw [hfe] at hℓ
        have hl2 : lab = ℓ := Option.some.inj hℓ
        subst hl2
        exact ⟨List.mem_of_find?_eq_some hfe, Or.inl (List.find?_some hfe)⟩
      | none =>
        rw [hfe] at hℓ
        refine ⟨List.mem_of_find?_eq_some hℓ, Or.inr ⟨?_, List.find?_some hℓ⟩⟩
        intro lab hm
        simpa using List.find?_eq_none.mp hfe lab hm
  · intro ho hnone
    rw [hres, VApp.codeLabel, if_neg ho] at hnone
    cases hfe : labels.find?
        (VApp.exactHit (VApp.shuffledQRow row r) (VApp.origTextOf row)) with
    | some lab =>
      rw [hfe] at hnone
      exact absurd hnone (by simp)
    | none =>
      rw [hfe] at hnone
      intro lab hm
      constructor
      · simpa using List.find?_eq_none.mp hfe lab hm
      · simpa using List.find?_eq_none.mp hnone lab hm

/-- C4 witness: the corrected statement's label condition evaluated at a
concrete shuffle whose result is label `'A'`. -/
theorem C4_thm_wit :
    ("A" : String) ∈ labels ∧
      (VApp.exactHit (VApp.shuffledQRow c4wRow rng0) (VApp.origTextOf c4wRow)
          "A" = true ∨
        ((∀ lab ∈ labels,
            VApp.exactHit (VApp.shuffledQRow c4wRow rng0)
              (VApp.origTextOf c4wRow) lab = false) ∧
          VApp.subHit (VApp.shuffledQRow c4wRow rng0) (VApp.origTextOf c4wRow)
            "A" = true)) :=
  (C4_thm c4wRow rng0 (by decide)).2.1 "A" rfl

/-- C5 (corrected): in `TestV-App.py`'s `shuffle_question` the permutation
covers only the non-empty options and the empty slots are padded at the end:
the leading labels carry exactly a permutation of the non-empty option texts
and every later slot is empty.  In the two UI implementations the padding
happens *before* the shuffle, so an empty slot can precede a non-empty option
there (`C5_cex`). -/
theorem C5_thm (row : VApp.VRow) (r : RNG)
    (h2 : 2 ≤ (VApp.nonEmptyOpts row).length) :
    (∀ i, i < (VApp.nonEmptyOpts row).length →
        ((VApp.shuffle_question row r).1.1).opts.getD i "" ≠ "") ∧
      (∀ i, (VApp.nonEmptyOpts row).length ≤ i →
        ((VApp.shuffle_question row r).1.1).opts.getD i "" = "") ∧
      List.Perm
        (((VApp.shuffle_question row r).1.1).opts.take
          (VApp.nonEmptyOpts row).length)
        ((VApp.nonEmptyOpts row).map Prod.snd) := by
  have hn2 : ¬ (VApp.nonEmptyOpts row).length < 2 := by omega
  have hk4 : (VApp.nonEmptyOpts row).length ≤ 4 := nonEmptyOpts_length_le row
  have htl : (((pyShuffle (VApp.nonEmptyOpts row) r).1).map Prod.snd).length
      = (VApp.nonEmptyOpts row).length := by
    rw [List.length_map, pyShuffle_length]
  have hperm :
      List.Perm (((pyShuffle (VApp.nonEmptyOpts row) r).1).map Prod.snd)
        ((VApp.nonEmptyOpts row).map Prod.snd) :=
    (pyShuffle_perm _ _).map Prod.snd
  have hopts : ((VApp.shuffle_question row r).1.1).opts
      = quadOf (((pyShuffle (VApp.nonEmptyOpts row) r).1).map Prod.snd) := by
    simp only [VApp.shuffle_question]
    rw [if_neg hn2]
    rfl
  refine ⟨?_, ?_, ?_⟩
  · intro i hi
    have hi4 : i < 4 := by omega
    have hi' : i < (((pyShuffle (VApp.nonEmptyOpts row) r).1).map
        Prod.snd).length := by
      rw [htl]; exact hi
    rw [hopts, quadOf_getD _ hi4, List.getD_eq_getElem _ _ hi']
    exact (nonEmptyOpts_snd_ne row
      (hperm.mem_iff.mp (List.getElem_mem hi'))).1
  · intro i hi
    by_cases h4 : i < 4
    · rw [hopts, quadOf_getD _ h4]
      refine List.getD_eq_default _ _ ?_
      rw [htl]; exact hi
    · rw [hopts]
      refine List.getD_eq_default _ _ ?_
      simp only [quadOf, List.length_cons, List.length_nil]
      omega
  · rw [hopts, ← htl,
      quadOf_take _ (by rw [htl]; exact hk4)]
    exact hperm

/-- C5 witness: the permutation part of the corrected statement evaluated on
a record with two non-empty options. -/
theorem C5_thm_wit :
    List.Perm
      (((VApp.shuffle_question c5wRow rng0).1.1).opts.take
        (VApp.nonEmptyOpts c5wRow).length)
      ((VApp.nonEmptyOpts c5wRow).map Prod.snd) :=
  (C5_thm c5wRow rng0 (by decide)).2.2

/-- C10: in `TestVariant-W.py`, for every loaded record whose correct text is
the empty string (empty first option column) the `opts_copy.index(corr)`
lookup matches one of the padded empty slots: the answer-key entry is a
non-empty letter of `A..D` that points at an *empty* option slot, not the
empty/unresolved marker. -/
theorem C10_thm (cells : List String) (r : RNG)
    (hc : (loadRow cells).corr = "") :
    (W.stepW (loadRow cells) r).1.2 ≠ "" ∧
      (W.stepW (loadRow cells) r).1.2 ∈ labels ∧
      AQ.at (W.stepW (loadRow cells) r).1.1 ((W.stepW (loadRow cells) r).1.2)
        = "" := by
  have hc1 : cells.getD 1 "" = "" := hc
  have hfl : (W.filteredW (loadRow cells).opts).length ≤ 3 := by
    show (List.filter _
      [cells.getD 1 "", cells.getD 2 "", cells.getD 3 "",
        cells.getD 4 ""]).length ≤ 3
    rw [hc1, List.filter_cons_of_neg (by decide)]
    exact le_trans (List.length_filter_le _ _) (by simp)
  have hplen : (padTo4 (W.filteredW (loadRow cells).opts)).length = 4 := by
    rw [padTo4_length]; omega
  have hmem0 : "" ∈ padTo4 (W.filteredW (loadRow cells).opts) :=
    empty_mem_padTo4 (by omega)
  have hsmem :
      "" ∈ (pyShuffle (padTo4 (W.filteredW (loadRow cells).opts)) r).1 :=
    (pyShuffle_perm _ _).mem_iff.mpr hmem0
  have hslen :
      ((pyShuffle (padTo4 (W.filteredW (loadRow cells).opts)) r).1).length
        = 4 := by
    rw [pyShuffle_length, hplen]
  have hsome : (idxOf? (fun o => o = (loadRow cells).corr)
      (pyShuffle (padTo4 (W.filteredW (loadRow cells).opts)) r).1).isSome :=
    idxOf?_isSome_of_mem hsmem (by simp [hc])
  obtain ⟨i, hi⟩ := Option.isSome_iff_exists.mp hsome
  obtain ⟨hilt, hpi⟩ := idxOf?_some_spec hi
  have hi4 : i < 4 := by rw [hslen] at hilt; exact hilt
  have hgi : ((pyShuffle (padTo4 (W.filteredW (loadRow cells).opts)) r).1).get
      ⟨i, hilt⟩ = "" := by
    have hp := of_decide_eq_true hpi
    rw [hc] at hp
    exact hp
  have hlab : (W.stepW (loadRow cells) r).1.2 = labelOf i := by
    show W.keyLabelW (loadRow cells).corr
      (pyShuffle (padTo4 (W.filteredW (loadRow cells).opts)) r).1 = labelOf i
    rw [W.keyLabelW, hi]
  refine ⟨?_, ?_, ?_⟩
  · rw [hlab]; exact labelOf_ne hi4
  · rw [hlab]; exact labelOf_mem hi4
  · rw [hlab]
    show (quadOf
      (pyShuffle (padTo4 (W.filteredW (loadRow cells).opts)) r).1).getD
        (labelIdx (labelOf i)) "" = ""
    rw [labelIdx_labelOf hi4, quadOf_getD _ hi4,
      List.getD_eq_getElem _ _ (by rw [hslen]; exact hi4)]
    exact hgi

/-- C10 witness: a record with an empty correct cell and three real options,
evaluated through the per-question step. -/
theorem C10_thm_wit :
    (W.stepW (loadRow c10Cells) rng0).1.2 ≠ "" ∧
      (W.stepW (loadRow c10Cells) rng0).1.2 ∈ labels ∧
      AQ.at (W.stepW (loadRow c10Cells) rng0).1.1
        ((W.stepW (loadRow c10Cells) rng0).1.2) = "" :=
  C10_thm c10Cells rng0 rfl

/-! ### The stream-consumption discipline, composed -/

theorem good_pure {β : Type} (b : β) : Good (fun r => (b, r)) := by
  constructor
  · intro r
    exact ⟨le_refl _, rfl⟩
  · intro s₁ s₂ p _
    exact ⟨rfl, rfl⟩

theorem good_next (n : Nat) : Good (fun r => RNG.next r n) := by
  constructor
  · intro r
    exact ⟨Nat.le_succ _, rfl⟩
  · intro s₁ s₂ p h
    constructor
    · show s₂ p % n = s₁ p % n
      rw [h p (le_refl _) (Nat.lt_succ_self p)]
    · rfl

theorem good_bind {β γ : Type} {f : RNG → β × RNG} {g : β → RNG → γ × RNG}
    (hf : Good f) (hg : ∀ b, Good (g b)) :
    Good (fun r => g (f r).1 (f r).2) := by
  obtain ⟨hfm, hfs⟩ := hf
  constructor
  · intro r
    obtain ⟨h1, h2⟩ := hfm r
    obtain ⟨h3, h4⟩ := (hg (f r).1).1 (f r).2
    exact ⟨le_trans h1 h3, h4.trans h2⟩
  · intro s₁ s₂ p h
    have hfm1 := hfm ⟨s₁, p⟩
    have hstream1 : (f ⟨s₁, p⟩).2 = ⟨s₁, ((f ⟨s₁, p⟩).2).pos⟩ := by
      conv_lhs => rw [show (f ⟨s₁, p⟩).2
        = ⟨((f ⟨s₁, p⟩).2).stream, ((f ⟨s₁, p⟩).2).pos⟩ from rfl]
      rw [hfm1.2]
    have hgm1 := (hg (f ⟨s₁, p⟩).1).1 ⟨s₁, ((f ⟨s₁, p⟩).2).pos⟩
    have hw1 : g (f ⟨s₁, p⟩).1 (f ⟨s₁, p⟩).2
        = g (f ⟨s₁, p⟩).1 ⟨s₁, ((f ⟨s₁, p⟩).2).pos⟩ := by
      rw [← hstream1]
    have hagf : ∀ n, p ≤ n → n < ((f ⟨s₁, p⟩).2).pos → s₁ n = s₂ n := by
      intro n hn1 hn2
      refine h n hn1 ?_
      show n < ((g (f ⟨s₁, p⟩).1 (f ⟨s₁, p⟩).2).2).pos
      rw [hw1]
      exact lt_of_lt_of_le hn2 hgm1.1
    obtain ⟨hfv, hfp⟩ := hfs s₁ s₂ p hagf
    have hstream2 : (f ⟨s₂, p⟩).2 = ⟨s₂, ((f ⟨s₁, p⟩).2).pos⟩ := by
      conv_lhs => rw [show (f ⟨s₂, p⟩).2
        = ⟨((f ⟨s₂, p⟩).2).stream, ((f ⟨s₂, p⟩).2).pos⟩ from rfl]
      rw [(hfm ⟨s₂, p⟩).2, hfp]
    have hw2 : g (f ⟨s₂, p⟩).1 (f ⟨s₂, p⟩).2
        = g (f ⟨s₁, p⟩).1 ⟨s₂, ((f ⟨s₁, p⟩).2).pos⟩ := by
      rw [hfv, hstream2]
    have hagg : ∀ n, ((f ⟨s₁, p⟩).2).pos ≤ n →
        n < ((g (f ⟨s₁, p⟩).1 ⟨s₁, ((f ⟨s₁, p⟩).2).pos⟩).2).pos →
        s₁ n = s₂ n := by
      intro n hn1 hn2
      refine h n (le_trans hfm1.1 hn1) ?_
      show n < ((g (f ⟨s₁, p⟩).1 (f ⟨s₁, p⟩).2).2).pos
      rw [hw1]
      exact hn2
    obtain ⟨hgv, hgp⟩ :=
      (hg (f ⟨s₁, p⟩).1).2 s₁ s₂ ((f ⟨s₁, p⟩).2).pos hagg
    constructor
    · show (g (f ⟨s₂, p⟩).1 (f ⟨s₂, p⟩).2).1
        = (g (f ⟨s₁, p⟩).1 (f ⟨s₁, p⟩).2).1
      rw [hw2, hw1]
      exact hgv
    · show ((g (f ⟨s₂, p⟩).1 (f ⟨s₂, p⟩).2).2).pos
        = ((g (f ⟨s₁, p⟩).1 (f ⟨s₁, p⟩).2).2).pos
      rw [hw2, hw1]
      exact hgp

theorem good_pySample {α : Type} [Inhabited α] :
    ∀ (k : Nat) (l : List α), Good (fun r => pySample l k r) := by
  intro k
  induction k with
  | zero =>
    intro l
    have heq : (fun r => pySample l 0 r) = fun r => (([] : List α), r) := by
      funext r
      simp only [pySample]
    rw [heq]
    exact good_pure []
  | succ k ih =>
    intro l
    cases l with
    | nil =>
      have heq : (fun r => pySample ([] : List α) (k + 1) r)
          = fun r => (([] : List α), r) := by
        funext r
        simp only [pySample]
      rw [heq]
      exact good_pure []
    | cons a as =>
      have heq : (fun r => pySample (a :: as) (k + 1) r)
          = fun r =>
            (fun j r1 =>
              ((fun rest r2 => ((a :: as).getD j default :: rest, r2))
                (pySample ((a :: as).eraseIdx j) k r1).1
                (pySample ((a :: as).eraseIdx j) k r1).2))
              (RNG.next r (a :: as).length).1
              (RNG.next r (a :: as).length).2 := by
        funext r
        simp only [pySample]
      rw [heq]
      exact @good_bind _ _ (fun r => RNG.next r (a :: as).length)
        (fun j r1 =>
          ((fun rest r2 => ((a :: as).getD j default :: rest, r2))
            (pySample ((a :: as).eraseIdx j) k r1).1
            (pySample ((a :: as).eraseIdx j) k r1).2))
        (good_next _)
        (fun j => @good_bind _ _
          (fun r1 => pySample ((a :: as).eraseIdx j) k r1)
          (fun rest r2 => ((a :: as).getD j default :: rest, r2))
          (ih _) (fun rest => good_pure _))

theorem good_pyChoiceN {α : Type} [Inhabited α] :
    ∀ (k : Nat) (l : List α), Good (fun r => pyChoiceN l k r) := by
  intro k
  induction k with
  | zero =>
    intro l
    have heq : (fun r => pyChoiceN l 0 r) = fun r => (([] : List α), r) := by
      funext r
      simp only [pyChoiceN]
    rw [heq]
    exact good_pure []
  | succ k ih =>
    intro l
    by_cases hl : l.isEmpty
    · have heq : (fun r => pyChoiceN l (k + 1) r)
          = fun r => (([] : List α), r) := by
        funext r
        rw [pyChoiceN, if_pos hl]
      rw [heq]
      exact good_pure []
    · have heq : (fun r => pyChoiceN l (k + 1) r)
          = fun r =>
            (fun j r1 =>
              ((fun rest r2 => (l.getD j default :: rest, r2))
                (pyChoiceN l k r1).1 (pyChoiceN l k r1).2))
              (RNG.next r l.length).1 (RNG.next r l.length).2 := by
        funext r
        rw [pyChoiceN, if_neg hl]
      rw [heq]
      exact @good_bind _ _ (fun r => RNG.next r l.length)
        (fun j r1 =>
          ((fun rest r2 => (l.getD j default :: rest, r2))
            (pyChoiceN l k r1).1 (pyChoiceN l k r1).2))
        (good_next _)
        (fun j => @good_bind _ _ (fun r1 => pyChoiceN l k r1)
          (fun rest r2 => (l.getD j default :: rest, r2))
          (ih l) (fun rest => good_pure _))

theorem good_pyShuffle {α : Type} [Inhabited α] (l : List α) :
    Good (fun r => pyShuffle l r) :=
  good_pySample l.length l

theorem good_pyDigits : ∀ (k : Nat), Good (fun r => pyDigits k r) := by
  intro k
  induction k with
  | zero =>
    have heq : (fun r => pyDigits 0 r) = fun r => (([] : List Char), r) := by
      funext r
      simp only [pyDigits]
    rw [heq]
    exact good_pure []
  | succ k ih =>
    have heq : (fun r => pyDigits (k + 1) r)
        = fun r =>
          (fun j r1 =>
            ((fun rest r2 => (Char.ofNat (48 + j) :: rest, r2))
              (pyDigits k r1).1 (pyDigits k r1).2))
            (RNG.next r 10).1 (RNG.next r 10).2 := by
      funext r
      simp only [pyDigits]
    rw [heq]
    exact @good_bind _ _ (fun r => RNG.next r 10)
      (fun j r1 =>
        ((fun rest r2 => (Char.ofNat (48 + j) :: rest, r2))
          (pyDigits k r1).1 (pyDigits k r1).2))
      (good_next 10)
      (fun j => @good_bind _ _ (fun r1 => pyDigits k r1)
        (fun rest r2 => (Char.ofNat (48 + j) :: rest, r2))
        ih (fun rest => good_pure _))

theorem good_bookletId : Good bookletId :=
  @good_bind _ _ (fun r => pyDigits 7 r)
    (fun ds r1 => (String.mk ds, r1))
    (good_pyDigits 7) (fun _ => good_pure _)

theorem good_stepW (row : Row) : Good (fun r => W.stepW row r) :=
  @good_bind _ _ (fun r => pyShuffle (padTo4 (W.filteredW row.opts)) r)
    (fun shuf r1 =>
      (({ q := row.q, opts := quadOf shuf }, W.keyLabelW row.corr shuf), r1))
    (good_pyShuffle _) (fun _ => good_pure _)

theorem good_assembleW :
    ∀ (rows : List Row), Good (fun r => W.assemble rows r) := by
  intro rows
  induction rows with
  | nil =>
    have heq : (fun r => W.assemble [] r)
        = fun r => ((([] : List AQ), ([] : List String)), r) := by
      funext r
      simp only [W.assemble]
    rw [heq]
    exact good_pure _
  | cons row rest ih =>
    have heq : (fun r => W.assemble (row :: rest) r)
        = fun r =>
          (fun s r1 =>
            ((fun t r2 => ((s.1 :: t.1, s.2 :: t.2), r2))
              (W.assemble rest r1).1 (W.assemble rest r1).2))
            (W.stepW row r).1 (W.stepW row r).2 := by
      funext r
      simp only [W.assemble]
    rw [heq]
    exact @good_bind _ _ (fun r => W.stepW row r)
      (fun s r1 =>
        ((fun t r2 => ((s.1 :: t.1, s.2 :: t.2), r2))
          (W.assemble rest r1).1 (W.assemble rest r1).2))
      (good_stepW row)
      (fun s => @good_bind _ _ (fun r1 => W.assemble rest r1)
        (fun t r2 => ((s.1 :: t.1, s.2 :: t.2), r2))
        ih (fun _ => good_pure _))

theorem good_selectQuotaW :
    ∀ (sheets : List (List Row)) (ff : Nat),
      Good (fun r => W.selectQuota sheets ff r) := by
  intro sheets
  induction sheets with
  | nil =>
    intro ff
    have heq : (fun r => W.selectQuota [] ff r)
        = fun r => (([] : List Row), r) := by
      funext r
      simp only [W.selectQuota]
    rw [heq]
    exact good_pure []
  | cons rows rest ih =>
    intro ff
    by_cases he : rows.isEmpty
    · have heq : (fun r => W.selectQuota (rows :: rest) ff r)
          = fun r => W.selectQuota rest ff r := by
        funext r
        simp only [W.selectQuota]
        rw [if_pos he]
      rw [heq]
      exact ih ff
    · have hpick : Good (fun r =>
          if ff ≤ rows.length then pySample rows ff r
          else pyChoiceN rows ff r) := by
        by_cases hff : ff ≤ rows.length
        · have h2 : (fun r => if ff ≤ rows.length then pySample rows ff r
              else pyChoiceN rows ff r) = fun r => pySample rows ff r := by
            funext r
            rw [if_pos hff]
          rw [h2]
          exact good_pySample ff rows
        · have h2 : (fun r => if ff ≤ rows.length then pySample rows ff r
              else pyChoiceN rows ff r) = fun r => pyChoiceN rows ff r := by
            funext r
            rw [if_neg hff]
          rw [h2]
          exact good_pyChoiceN ff rows
      have heq : (fun r => W.selectQuota (rows :: rest) ff r)
          = fun r =>
            (fun pv r1 =>
              ((fun tv r2 => (pv ++ tv, r2))
                (W.selectQuota rest ff r1).1 (W.selectQuota rest ff r1).2))
              ((if ff ≤ rows.length then pySample rows ff r
                else pyChoiceN rows ff r).1)
              ((if ff ≤ rows.length then pySample rows ff r
                else pyChoiceN rows ff r).2) := by
        funext r
        simp only [W.selectQuota]
        rw [if_neg he]
      rw [heq]
      exact @good_bind _ _
        (fun r => if ff ≤ rows.length then pySample rows ff r
          else pyChoiceN rows ff r)
        (fun pv r1 =>
          ((fun tv r2 => (pv ++ tv, r2))
            (W.selectQuota rest ff r1).1 (W.selectQuota rest ff r1).2))
        hpick
        (fun pv => @good_bind _ _ (fun r1 => W.selectQuota rest ff r1)
          (fun tv r2 => (pv ++ tv, r2))
          (ih ff) (fun _ => good_pure _))

theorem good_selectExtrasW (pool : List Row) (extra : Nat) :
    Good (fun r => W.selectExtras pool extra r) := by
  by_cases hc : 0 < extra ∧ ¬ pool.isEmpty = true
  · by_cases hle : extra ≤ pool.length
    · have heq : (fun r => W.selectExtras pool extra r)
          = fun r => pySample pool extra r := by
        funext r
        rw [W.selectExtras, if_pos hc, if_pos hle]
      rw [heq]
      exact good_pySample extra pool
    · have heq : (fun r => W.selectExtras pool extra r)
          = fun r => pyChoiceN pool extra r := by
        funext r
        rw [W.selectExtras, if_pos hc, if_neg hle]
      rw [heq]
      exact good_pyChoiceN extra pool
  · have heq : (fun r => W.selectExtras pool extra r)
        = fun r => (([] : List Row), r) := by
      funext r
      rw [W.selectExtras, if_neg hc]
    rw [heq]
    exact good_pure []

theorem good_genVariantW (sheets : List (List Row))
    (sheetLimit ff extra qcount : Nat) :
    Good (fun r => W.genVariant sheets sheetLimit ff extra qcount r) :=
  @good_bind _ _ (fun r => W.selectQuota (sheets.take sheetLimit) ff r)
    (fun av r1 =>
      (fun bv r2 =>
        (fun cv r3 =>
          (fun dv r4 =>
            (fun ev r5 =>
              (({ qs := dv.1, key := dv.2, booklet := ev } : VOut), r5))
            (bookletId r4).1 (bookletId r4).2)
          (W.assemble (cv.take qcount) r3).1 (W.assemble (cv.take qcount) r3).2)
        (pyShuffle (av ++ bv) r2).1 (pyShuffle (av ++ bv) r2).2)
      (W.selectExtras sheets.flatten extra r1).1
      (W.selectExtras sheets.flatten extra r1).2)
    (good_selectQuotaW _ ff)
    (fun av => @good_bind _ _
      (fun r1 => W.selectExtras sheets.flatten extra r1)
      (fun bv r2 =>
        (fun cv r3 =>
          (fun dv r4 =>
            (fun ev r5 =>
              (({ qs := dv.1, key := dv.2, booklet := ev } : VOut), r5))
            (bookletId r4).1 (bookletId r4).2)
          (W.assemble (cv.take qcount) r3).1 (W.assemble (cv.take qcount) r3).2)
        (pyShuffle (av ++ bv) r2).1 (pyShuffle (av ++ bv) r2).2)
      (good_selectExtrasW _ extra)
      (fun bv => @good_bind _ _ (fun r2 => pyShuffle (av ++ bv) r2)
        (fun cv r3 =>
          (fun dv r4 =>
            (fun ev r5 =>
              (({ qs := dv.1, key := dv.2, booklet := ev } : VOut), r5))
            (bookletId r4).1 (bookletId r4).2)
          (W.assemble (cv.take qcount) r3).1 (W.assemble (cv.take qcount) r3).2)
        (good_pyShuffle _)
        (fun cv => @good_bind _ _ (fun r3 => W.assemble (cv.take qcount) r3)
          (fun dv r4 =>
            (fun ev r5 =>
              (({ qs := dv.1, key := dv.2, booklet := ev } : VOut), r5))
            (bookletId r4).1 (bookletId r4).2)
          (good_assembleW _)
          (fun dv => @good_bind _ _ bookletId
            (fun ev r5 =>
              (({ qs := dv.1, key := dv.2, booklet := ev } : VOut), r5))
            good_bookletId (fun _ => good_pure _)))))

theorem good_genRunW (sheets : List (List Row))
    (sheetLimit ff extra qcount : Nat) :
    ∀ (n : Nat),
      Good (fun r => W.genRun sheets sheetLimit ff extra qcount n r) := by
  intro n
  induction n with
  | zero =>
    have heq : (fun r => W.genRun sheets sheetLimit ff extra qcount 0 r)
        = fun r => (([] : List VOut), r) := by
      funext r
      simp only [W.genRun]
    rw [heq]
    exact good_pure []
  | succ n ih =>
    have heq : (fun r => W.genRun sheets sheetLimit ff extra qcount (n + 1) r)
        = fun r =>
          (fun v r1 =>
            ((fun t r2 => (v :: t, r2))
              (W.genRun sheets sheetLimit ff extra qcount n r1).1
              (W.genRun sheets sheetLimit ff extra qcount n r1).2))
            (W.genVariant sheets sheetLimit ff extra qcount r).1
            (W.genVariant sheets sheetLimit ff extra qcount r).2 := by
      funext r
      simp only [W.genRun]
    rw [heq]
    exact @good_bind _ _
      (fun r => W.genVariant sheets sheetLimit ff extra qcount r)
      (fun v r1 =>
        ((fun t r2 => (v :: t, r2))
          (W.genRun sheets sheetLimit ff extra qcount n r1).1
          (W.genRun sheets sheetLimit ff extra qcount n r1).2))
      (good_genVariantW sheets sheetLimit ff extra qcount)
      (fun v => @good_bind _ _
        (fun r1 => W.genRun sheets sheetLimit ff extra qcount n r1)
        (fun t r2 => (v :: t, r2))
        ih (fun _ => good_pure _))

/-- C8: the whole generation run is a pure function of the bank, the spec
numbers and the seeded stream, consumed in a fixed sequential order (per
variant: quota draws in bank order, overflow draws, the question-order
shuffle, per-question option shuffles, the booklet id — exactly the phase
order of `W.genVariant`).  Formally: any two streams that agree on the
positions the run actually consumes produce identical lists of variants
(questions, answer keys and booklet ids alike); identical seeding is the
special case of full agreement. -/
theorem C8_thm (sheets : List (List Row)) (sheetLimit ff extra qcount n : Nat)
    (s₁ s₂ : Nat → Nat)
    (h : ∀ i,
      i < ((W.genRun sheets sheetLimit ff extra qcount n ⟨s₁, 0⟩).2).pos →
      s₁ i = s₂ i) :
    (W.genRun sheets sheetLimit ff extra qcount n ⟨s₂, 0⟩).1
      = (W.genRun sheets sheetLimit ff extra qcount n ⟨s₁, 0⟩).1 :=
  ((good_genRunW sheets sheetLimit ff extra qcount n).2 s₁ s₂ 0
    (fun i _ hlt => h i hlt)).1

/-- C8 witness: a run over a concrete bank consumes 13 draws; a stream that
agrees with the all-zero stream on those 13 positions (and differs after)
reproduces the identical variant list. -/
theorem C8_thm_wit :
    (W.genRun c8Bank 1 1 0 1 1 ⟨c8s2, 0⟩).1
      = (W.genRun c8Bank 1 1 0 1 1 rng0).1 :=
  C8_thm c8Bank 1 1 0 1 1 (fun _ => 0) c8s2 (by decide)

end TVA
